import Mathlib

/-!
Shallow embedding of the view-layer handlers of the `_1327` content-management
application (`_1327/documents/views.py` and `_1327/minutes/views.py`), together
with theorems settling the specification claims about them.

Conventions of the embedding:
* Python dicts (`request.POST`, `field_dict`, the handlers' result maps) are
  association lists; `lookupKey`, `setKey`, `eraseKey` mirror `d[k]`, `d[k] = v`
  and `del d[k]` (dict keys are unique, so erasing every matching entry equals
  erasing the one entry).
* `request.POST` is `Option (List (String × String))`, so that the literal
  source check `data is None` is representable; the web framework in fact
  always supplies a (possibly empty) form dict.
* Machine behaviour that raises an uncaught Python exception is an explicit
  `exn` result constructor; HTTP error responses get their own constructors.
* External collaborators (permission backend, upload handler, revision plugin,
  content-type registry) are parameters of the handler functions.
-/

namespace Spec2Proof

/-- Python `int(s)`: optional surrounding whitespace, optional sign, at least
one decimal digit; `none` models the `ValueError` raised otherwise. -/
def pyWS (c : Char) : Bool :=
  c = ' ' || c = '\t' || c = '\n' || c = '\r' || c = '\x0b' || c = '\x0c'

def digitsVal (cs : List Char) : Nat :=
  cs.foldl (fun n c => 10 * n + (c.toNat - '0'.toNat)) 0

def pyInt (s : String) : Option Int :=
  let t := ((s.toList.dropWhile pyWS).reverse.dropWhile pyWS).reverse
  let neg : Bool := match t with
    | '-' :: _ => true
    | _ => false
  let core : List Char := match t with
    | '-' :: rest => rest
    | '+' :: rest => rest
    | _ => t
  if core.isEmpty then none
  else if core.all Char.isDigit then
    some (if neg then -(digitsVal core : Int) else (digitsVal core : Int))
  else none

/-- Association-list model of a Python dict lookup `d[k]` (first match). -/
def lookupKey {κ ν : Type} [BEq κ] (l : List (κ × ν)) (k : κ) : Option ν :=
  match l.find? (fun p => p.1 == k) with
  | some p => some p.2
  | none => none

/-- Dict assignment `d[k] = v`: replace the entry in place, else append. -/
def setKey {κ ν : Type} [BEq κ] : List (κ × ν) → κ → ν → List (κ × ν)
  | [], k, v => [(k, v)]
  | p :: rest, k, v => if p.1 == k then (k, v) :: rest else p :: setKey rest k v

/-- Dict deletion `del d[k]` (dict keys are unique). -/
def eraseKey {κ ν : Type} [BEq κ] (l : List (κ × ν)) (k : κ) : List (κ × ν) :=
  l.filter (fun p => !(p.1 == k))

/-- Substring test, used for the source check `"_ptr" in key`. -/
def containsSeq (pat : List Char) : List Char → Bool
  | [] => pat.isEmpty
  | c :: rest => pat.isPrefixOf (c :: rest) || containsSeq pat rest

def hasPtr (key : String) : Bool :=
  containsSeq "_ptr".toList key.toList

/-- An HTTP request as consumed by the handlers: the ajax flag, the method,
the form body (`request.POST`) and the query dict (`request.GET`). -/
structure Request where
  is_ajax : Bool
  method : String
  postData : Option (List (String × String))
  getData : List (String × String)

/-- Python truthiness of `request.POST`: an absent or empty form dict. -/
def postFalsy (r : Request) : Bool :=
  match r.postData with
  | none => true
  | some l => l.isEmpty

/-- `request.POST[k]`; `none` models the `MultiValueDictKeyError`. -/
def postLookup (r : Request) (k : String) : Option String :=
  match r.postData with
  | none => none
  | some l => lookupKey l k

def getLookup (r : Request) (k : String) : Option String :=
  lookupKey r.getData k

/-- The requesting user's object-level permissions: `has_perm(VIEW, doc)` and
`document.can_be_changed_by(user)`, both keyed by document id. -/
structure Perms where
  canView : Int → Bool
  canChange : Int → Bool

/-- A stored attachment row (`documents.models.Attachment`). -/
structure Attachment where
  id : Int
  docId : Int
  displayname : String
  file : String
  index : Int
  no_direct_download : Bool
deriving DecidableEq, Repr

/-- ORM `save()` of an attachment: replace the row with the same primary key. -/
def dbSave (db : List Attachment) (a : Attachment) : List Attachment :=
  db.map (fun b => if b.id == a.id then a else b)

/-- Responses of the attachment handlers. `notFound` is a raised `Http404`,
`exn` an uncaught Python exception, `file` the `sendfile` streaming response,
`jsonMap` the serialized id-to-name JSON object. -/
inductive AttachResponse where
  | ok
  | okId (id : Int)
  | notFound
  | forbidden
  | badRequest
  | serverError
  | exn (msg : String)
  | file (path : String) (asAttachment : Bool) (filename : String)
  | jsonMap (data : List (Int × String))
deriving DecidableEq, Repr

/-- Truthiness of `request.GET.get('embed', None)`. -/
def hasEmbedFlag (req : Request) : Bool :=
  match getLookup req "embed" with
  | some s => !s.isEmpty
  | none => false

/-- `download_attachment`: GET-gated, then resolves the attachment, checks the
view permission of the owning document and streams the stored file. -/
def download_attachment (req : Request) (perms : Perms) (mediaRoot : String)
    (db : List Attachment) : AttachResponse :=
  if req.method ≠ "GET" then .badRequest
  else
    match getLookup req "attachment_id" with
    | none => .exn "MultiValueDictKeyError"
    | some idStr =>
      match pyInt idStr with
      | none => .exn "ValueError"
      | some pkv =>
        match db.find? (fun a => a.id == pkv) with
        | none => .notFound
        | some att =>
          if !perms.canView att.docId then .forbidden
          else .file (mediaRoot ++ "/" ++ att.file) (!hasEmbedFlag req) att.displayname

/-- Loop body of `update_attachment_order`: each form entry maps an attachment
primary key to a new index; permission is re-checked per attachment and every
successful iteration saves immediately (no transaction). -/
def orderLoop (perms : Perms) : List (String × String) → List Attachment →
    AttachResponse × List Attachment
  | [], db => (.ok, db)
  | (pk, idx) :: rest, db =>
    match pyInt pk with
    | none => (.exn "ValueError", db)
    | some pkv =>
      match db.find? (fun a => a.id == pkv) with
      | none => (.notFound, db)
      | some att =>
        if !perms.canChange att.docId then (.forbidden, db)
        else
          match pyInt idx with
          | none => (.exn "ValueError", db)
          | some idxv => orderLoop perms rest (dbSave db { att with index := idxv })

/-- The pure effect of a fully successful run of the reorder loop over some
entries: `some` of the resulting database, `none` when any entry would stop
the loop.  `orderLoop` on a successful batch equals `orderApply`
(`orderLoop_append` below). -/
def orderApply (perms : Perms) : List (String × String) → List Attachment →
    Option (List Attachment)
  | [], db => some db
  | (pk, idx) :: rest, db =>
    match pyInt pk with
    | none => none
    | some pkv =>
      match db.find? (fun a => a.id == pkv) with
      | none => none
      | some att =>
        if !perms.canChange att.docId then none
        else
          match pyInt idx with
          | none => none
          | some idxv => orderApply perms rest (dbSave db { att with index := idxv })

/-- `update_attachment_order`: the source guard is
`if data is None or not request.is_ajax(): raise Http404`. -/
def update_attachment_order (req : Request) (perms : Perms)
    (db : List Attachment) : AttachResponse × List Attachment :=
  match req.postData with
  | none => (.notFound, db)
  | some data =>
    if !req.is_ajax then (.notFound, db)
    else orderLoop perms data db

/-- `displayname.lower().split('.')[-1]`: the lowered segment after the last
dot, or the whole lowered name when there is no dot. -/
def lastDotSegment : List Char → List Char → List Char
  | acc, [] => acc
  | acc, c :: rest => if c = '.' then lastDotSegment [] rest else lastDotSegment (acc ++ [c]) rest

def extOf (name : String) : String :=
  String.mk (lastDotSegment [] (name.toList.map Char.toLower))

/-- The `data[attachment.id] = attachment.displayname` accumulation loop of
`get_attachments`, skipping names whose extension is not an allowed image type. -/
def buildImageMap (supported : List String) (atts : List Attachment) :
    List (Int × String) :=
  atts.foldl
    (fun data a =>
      if supported.contains (extOf a.displayname) then setKey data a.id a.displayname
      else data) []

/-- `get_attachments(request, document_id)`: ajax-gated image-attachment
listing; `docs` is the set of existing document ids (`Document.objects.get`
raises on a missing id). -/
def get_attachments (req : Request) (perms : Perms) (docs : List Int)
    (supported : List String) (document_id : Int) (db : List Attachment) :
    AttachResponse :=
  if !req.is_ajax then .notFound
  else if !(docs.contains document_id) then .exn "DoesNotExist"
  else if !(perms.canChange document_id) then .forbidden
  else .jsonMap (buildImageMap supported (db.filter (fun a => a.docId == document_id)))

/-- `json.loads` restricted to the boolean literals the flag-toggle endpoint
consumes; other payloads are not modelled. -/
def jsonLoadsBool (s : String) : Option Bool :=
  if s = "true" then some true else if s = "false" then some false else none

/-- `change_attachment_no_direct_download`: ajax-POST-gated toggle of the
`no_direct_download` flag of one attachment. -/
def change_attachment_no_direct_download (req : Request) (perms : Perms)
    (db : List Attachment) : AttachResponse × List Attachment :=
  if postFalsy req || !req.is_ajax then (.notFound, db)
  else
    match postLookup req "id" with
    | none => (.exn "MultiValueDictKeyError", db)
    | some idStr =>
      match postLookup req "no_direct_download" with
      | none => (.exn "MultiValueDictKeyError", db)
      | some flagStr =>
        match jsonLoadsBool flagStr with
        | none => (.exn "ValueError", db)
        | some flag =>
          match pyInt idStr with
          | none => (.exn "ValueError", db)
          | some pkv =>
            match db.find? (fun a => a.id == pkv) with
            | none => (.exn "DoesNotExist", db)
            | some att =>
              if !perms.canChange att.docId then (.forbidden, db)
              else (.ok, dbSave db { att with no_direct_download := flag })

/-- `create_attachment`: ajax-POST-gated; `upload` is the outcome of the
external `handle_attachment` helper (`some id` on success). -/
def create_attachment (req : Request) (perms : Perms) (docs : List Int)
    (upload : Option Int) : AttachResponse :=
  if !req.is_ajax || req.method ≠ "POST" then .notFound
  else
    match postLookup req "document" with
    | none => .exn "MultiValueDictKeyError"
    | some dStr =>
      match pyInt dStr with
      | none => .exn "ValueError"
      | some d =>
        if !(docs.contains d) then .exn "DoesNotExist"
        else if !(perms.canChange d) then .forbidden
        else
          match upload with
          | some attId => .okId attId
          | none => .badRequest

/-- `delete_attachment`: ajax-POST-gated; deletes the stored file and then the
row (file deletion is modelled only through the row's removal). -/
def delete_attachment (req : Request) (perms : Perms) (db : List Attachment) :
    AttachResponse × List Attachment :=
  if req.is_ajax && req.method == "POST" then
    match postLookup req "id" with
    | none => (.exn "MultiValueDictKeyError", db)
    | some idStr =>
      match pyInt idStr with
      | none => (.exn "ValueError", db)
      | some pkv =>
        match db.find? (fun a => a.id == pkv) with
        | none => (.exn "DoesNotExist", db)
        | some att =>
          if !perms.canChange att.docId then (.forbidden, db)
          else (.ok, db.filter (fun a => !(a.id == pkv)))
  else (.notFound, db)

/-! ### Minutes handlers (`_1327/minutes/views.py`) -/

/-- A minutes document as far as the listing needs it: its primary key and the
calendar year of its `date` field. -/
structure MinutesDoc where
  id : Int
  year : Int
deriving DecidableEq, Repr

/-- An argument of `request.user.has_perm`: either a permission codename
string or a model instance. -/
inductive PermArg where
  | permStr (s : String)
  | docObj (id : Int)
deriving DecidableEq, Repr

/-- The authorization backend's `user.has_perm(perm, obj)`: `grants` is the
set of (permission codename, object id) pairs held by the user.  A permission
argument that is not a codename string never grants anything (the backends
expect a string there). -/
def has_perm (grants : List (String × Int)) : PermArg → PermArg → Bool
  | .permStr p, .docObj d => grants.contains (p, d)
  | _, _ => false

/-- `MinutesDocument.get_view_permission()`; the exact codename comes from the
model (outside the excerpt) and is irrelevant to the theorems. -/
def minutesViewPermission : String := "minutes.view_minutesdocument"

/-- The `years[m.date.year]` grouping step of the minutes listing. -/
def addToYear (years : List (Int × List MinutesDoc)) (y : Int) (m : MinutesDoc) :
    List (Int × List MinutesDoc) :=
  match lookupKey years y with
  | some ms => setKey years y (ms ++ [m])
  | none => years ++ [(y, [m])]

/-- `minutes.views.list`: `docs` is `MinutesDocument.objects.order_by('-date')`
as an ordered sequence.  The source filters with
`request.user.has_perm(m, MinutesDocument.get_view_permission())` — the
document instance is passed where the permission codename belongs. -/
def minutes_list (grants : List (String × Int)) (docs : List MinutesDoc) :
    List (Int × List MinutesDoc) :=
  let years := docs.foldl
    (fun ys m =>
      if !has_perm grants (.docObj m.id) (.permStr minutesViewPermission) then ys
      else addToYear ys m.year m) []
  List.insertionSort (fun p q => q.1 ≤ p.1) years

/-- A minutes-document row as `get_or_create` sees it: the four lookup fields
of the create handler. -/
structure MinutesRow where
  author : Int
  url_title : String
  title : String
  moderator : Int
deriving DecidableEq, Repr

inductive MinutesResponse where
  | editPage (url_title : String)
  | forbidden
deriving DecidableEq, Repr

/-- Word characters of the regex `\w` (ASCII portion). -/
def isWordChar (c : Char) : Bool := c.isAlphanum || c = '_'

/-- Replace every maximal run of `[-\s]` characters by a single `-`
(the second regex substitution of `django.utils.text.slugify`). -/
def collapseRuns : List Char → List Char
  | [] => []
  | [c] => if pyWS c || c = '-' then ['-'] else [c]
  | c :: d :: rest =>
    if pyWS c || c = '-' then
      if pyWS d || d = '-' then collapseRuns (d :: rest)
      else '-' :: collapseRuns (d :: rest)
    else c :: collapseRuns (d :: rest)

/-- `django.utils.text.slugify` (ASCII path): drop characters outside
`[\w\s-]`, strip surrounding whitespace, lowercase, then collapse each run of
whitespace or hyphens into one hyphen. -/
def slugify (s : String) : String :=
  let kept := s.toList.filter (fun c => isWordChar c || pyWS c || c = '-')
  let stripped := ((kept.dropWhile pyWS).reverse.dropWhile pyWS).reverse
  let lowered := stripped.map Char.toLower
  String.mk (collapseRuns lowered)

/-- The title template `_("New minutes document from {}").format(str(datetime.now()))`;
`now` is the rendered timestamp. -/
def newMinutesTitle (now : String) : String :=
  "New minutes document from " ++ now

/-- `minutes.views.create`: coarse add-permission gate, opportunistic purge of
stale empty drafts (the external `delete_old_empty_pages`, modelled by the
`purge` parameter), `get_or_create` on all four fields, then the handler
returns the edit screen of the document with that url-title (it invokes
`edit(request, url_title)` inline). -/
def minutes_create (hasAddPerm : Bool) (user : Int) (now : String)
    (purge : List MinutesRow → List MinutesRow) (db : List MinutesRow) :
    MinutesResponse × List MinutesRow :=
  if hasAddPerm then
    let db1 := purge db
    let title := newMinutesTitle now
    let url_title := slugify title
    let row : MinutesRow := ⟨user, url_title, title, user⟩
    let db2 := if row ∈ db1 then db1 else db1 ++ [row]
    (.editPage url_title, db2)
  else (.forbidden, db)

/-- Index comparison used by `order_by('index')`. -/
def idxLE (a b : Attachment) : Prop := a.index ≤ b.index

instance : DecidableRel idxLE := fun a b => Int.decLe a.index b.index

instance : IsTotal Attachment idxLE := ⟨fun a b => Int.le_total a.index b.index⟩

instance : IsTrans Attachment idxLE := ⟨fun _ _ _ h h' => Int.le_trans h h'⟩

/-- The attachment list rendered by `minutes.views.view`:
`document.attachments.filter(no_direct_download=False).order_by('index')`. -/
def minutes_view_attachments (docId : Int) (db : List Attachment) :
    List Attachment :=
  List.insertionSort idxLE
    (db.filter (fun a => a.docId == docId && !a.no_direct_download))

inductive ViewResult where
  | page (attachments : List Attachment)
  | denied

/-- `minutes.views.view`, reduced to its permission gate and attachment list;
the markdown rendering is external. -/
def minutes_view (perms : Perms) (docId : Int) (db : List Attachment) :
    ViewResult :=
  if perms.canView docId then .page (minutes_view_attachments docId db)
  else .denied

/-! ### The revert handler (`documents.views.revert`) -/

/-- A stored Python field value: the snapshot values of a version's
`field_dict`.  Many-to-many snapshot values are id lists. -/
inductive PyVal where
  | int (n : Int)
  | str (s : String)
  | ids (xs : List Int)
  | nil
deriving DecidableEq, Repr

/-- Classification of a snapshot key by the concrete document class:
`hasattr(document_class, key)` holds and `getattr(document_class, key).field`
is a `ManyToManyField` (`m2m`) or some other field with the given `attname`
(`rel`).  Keys that are not class attributes are classified `none`. -/
inductive FieldKind where
  | m2m
  | rel (attname : String)
deriving DecidableEq, Repr

def DocClass : Type := String → Option FieldKind

abbrev Fields := List (String × PyVal)

/-- One stored version of a document: its primary key, its `field_dict`
snapshot and the comment of the revision it belongs to. -/
structure Version where
  pk : Int
  field_dict : Fields
  comment : String
deriving DecidableEq, Repr

/-- The `for key in fields.keys()` loop of `revert`: drop keys containing
`"_ptr"`, move many-to-many values into their own dict, rename other class
attributes to their `attname` (assign under the attname, then delete the
original key), and leave the remaining keys untouched. -/
def processLoop (cls : DocClass) : Fields → Fields → Fields → Fields × Fields
  | [], nf, m2m => (nf, m2m)
  | (key, v) :: rest, nf, m2m =>
    if hasPtr key then
      processLoop cls rest (eraseKey nf key) m2m
    else
      match cls key with
      | some .m2m => processLoop cls rest (eraseKey nf key) (m2m ++ [(key, v)])
      | some (.rel attname) => processLoop cls rest (eraseKey (setKey nf attname v) key) m2m
      | none => processLoop cls rest nf m2m

/-- `new_fields`/`many_to_many_fields` as computed from the popped snapshot:
`new_fields` starts as a copy of `fields` and the loop iterates `fields`. -/
def processFields (cls : DocClass) (fields : Fields) : Fields × Fields :=
  processLoop cls fields fields []

/-- External collaborators of the revert handler: the version sequence
returned by `revisions.get_for_object(document)`, the content-type registry,
whether `get_object_or_error` resolved the document, and whether the plugin's
`revision.revert(delete=False)` raises `RevertError`. -/
structure RevertEnv where
  versions : List Version
  ctypes : Int → Option DocClass
  docOk : Bool
  pluginRevertFails : Bool

inductive RevertResult where
  | notFound
  | resolveError
  | exn (msg : String)
  | badRequest (body : String)
  | serverError (body : String)
  | success (new_fields : Fields) (many_to_many_fields : Fields) (comment : String)

/-- The linear first-match scan
`for version in versions: if version.pk == int(version_id): ...` —
`int(version_id)` is evaluated inside the loop, so the conversion error can
only be raised when at least one version is scanned. -/
def findRevertVersion (version_id : String) : List Version → Except String (Option Version)
  | [] => .ok none
  | v :: rest =>
    match pyInt version_id with
    | none => .error "ValueError"
    | some n => if v.pk == n then .ok (some v) else findRevertVersion version_id rest

/-- `documents.views.revert`.  On the success path the result carries the
scalar keyword dict the fresh document object is constructed and saved from,
the extracted many-to-many snapshot dict, and the auto-generated revision
comment. -/
def revert (req : Request) (env : RevertEnv) : RevertResult :=
  if !req.is_ajax || postFalsy req then .notFound
  else
    match postLookup req "id" with
    | none => .exn "MultiValueDictKeyError"
    | some version_id =>
      match postLookup req "url_title" with
      | none => .exn "MultiValueDictKeyError"
      | some _url_title =>
        if !env.docOk then .resolveError
        else
          match findRevertVersion version_id env.versions with
          | .error e => .exn e
          | .ok none => .badRequest "Could not find document"
          | .ok (some revert_version) =>
            if env.pluginRevertFails then .serverError "Could not revert the version"
            else
              match lookupKey revert_version.field_dict "polymorphic_ctype" with
              | none => .exn "KeyError"
              | some (.int ct) =>
                match env.ctypes ct with
                | none => .exn "DoesNotExist"
                | some cls =>
                  let fields := eraseKey revert_version.field_dict "polymorphic_ctype"
                  let (new_fields, many_to_many_fields) := processFields cls fields
                  .success new_fields many_to_many_fields
                    ("reverted to revision \"" ++ revert_version.comment ++ "\"")
              | some _ => .exn "DoesNotExist"

/-- The persisted state of the document's row: its scalar columns (by
attname; `none` is an unset column falling back to the model default) and the
membership of each many-to-many relation. -/
structure DocState where
  scalars : String → Option PyVal
  m2m : String → List Int

/-- The `clear()` followed by `add(*values)` restoration: a relation present
in the extracted dict ends up with exactly the snapshot membership, every
other relation keeps its previous membership.  (A non-sequence snapshot value
would raise in the source and is not modelled.) -/
def restoreM2M (pre : String → List Int) (m2m : Fields) : String → List Int :=
  fun k =>
    match lookupKey m2m k with
    | some (.ids xs) => xs
    | _ => pre k

/-- Effect of the handler's outcome on the document's persisted state: only
the success path mutates anything — the fresh object is saved with exactly
`new_fields`, and the many-to-many relations are cleared and re-added. -/
def applyRevertResult (res : RevertResult) (st : DocState) : DocState :=
  match res with
  | .success nf m2m _ => { scalars := fun k => lookupKey nf k, m2m := restoreM2M st.m2m m2m }
  | _ => st

/-- The `attname` a snapshot key is renamed to, when its classification is a
non-many-to-many class attribute. -/
def relTarget (cls : DocClass) (k : String) : Option String :=
  match cls k with
  | some (.rel a) => some a
  | _ => none

/-- All rename targets of a snapshot under a document class. -/
def renTargets (cls : DocClass) (fields : Fields) : List String :=
  fields.filterMap (fun p => relTarget cls p.1)

/-! ### Concrete fixtures used by the witness theorems -/

def clsW : DocClass := fun k =>
  if k = "groups" then some .m2m
  else if k = "author" then some (.rel "author_id") else none

def field_dictW : Fields :=
  [("polymorphic_ctype", .int 7), ("id", .int 3), ("document_ptr_id", .int 3),
   ("text", .str "hello"), ("author", .int 5), ("groups", .ids [1, 2])]

def fieldsW : Fields := eraseKey field_dictW "polymorphic_ctype"

def vW : Version := ⟨12, field_dictW, "v1"⟩

def envW : RevertEnv :=
  ⟨[vW], fun n => if n = 7 then some clsW else none, true, false⟩

def reqW : Request :=
  ⟨true, "POST", some [("id", "12"), ("url_title", "doc")], []⟩

def stW : DocState := ⟨fun _ => none, fun _ => []⟩

/-! ## Lemmas about the dict model -/

theorem lookupKey_cons {κ ν : Type} [BEq κ] (p : κ × ν) (l : List (κ × ν)) (k : κ) :
    lookupKey (p :: l) k = if p.1 == k then some p.2 else lookupKey l k := by
  by_cases h : (p.1 == k) = true <;> simp [lookupKey, List.find?_cons, h]

theorem lookupKey_erase_self {κ ν : Type} [BEq κ] (l : List (κ × ν)) (k : κ) :
    lookupKey (eraseKey l k) k = none := by
  induction l with
  | nil => rfl
  | cons p rest ih =>
    by_cases h : (p.1 == k) = true
    · simpa [eraseKey, List.filter_cons, h] using ih
    · simpa [eraseKey, List.filter_cons, h, lookupKey_cons] using ih

theorem lookupKey_erase_ne {κ ν : Type} [BEq κ] [LawfulBEq κ] (l : List (κ × ν))
    (k a : κ) (hne : a ≠ k) : lookupKey (eraseKey l k) a = lookupKey l a := by
  induction l with
  | nil => rfl
  | cons p rest ih =>
    by_cases h : (p.1 == k) = true
    · have hpa : (p.1 == a) = false := by
        have : p.1 = k := by simpa using h
        simp [this, beq_eq_false_iff_ne, (Ne.symm hne)]
      simp [eraseKey, List.filter_cons, h, lookupKey_cons, hpa]
      simpa [eraseKey] using ih
    · simp [eraseKey, List.filter_cons, h, lookupKey_cons]
      by_cases hpa : (p.1 == a) = true
      · simp [hpa]
      · simp [hpa]
        simpa [eraseKey] using ih

theorem lookupKey_set_self {κ ν : Type} [BEq κ] [LawfulBEq κ] (l : List (κ × ν))
    (k : κ) (v : ν) : lookupKey (setKey l k v) k = some v := by
  induction l with
  | nil => simp [setKey, lookupKey_cons, lookupKey]
  | cons p rest ih =>
    by_cases h : (p.1 == k) = true
    · simp [setKey, h, lookupKey_cons]
    · simp [setKey, h, lookupKey_cons, ih]

theorem lookupKey_set_ne {κ ν : Type} [BEq κ] [LawfulBEq κ] (l : List (κ × ν))
    (k a : κ) (v : ν) (hne : a ≠ k) : lookupKey (setKey l k v) a = lookupKey l a := by
  induction l with
  | nil =>
    have : (k == a) = false := by simp [beq_eq_false_iff_ne, Ne.symm hne]
    simp [setKey, lookupKey_cons, lookupKey, this]
  | cons p rest ih =>
    by_cases h : (p.1 == k) = true
    · have hp : p.1 = k := by simpa using h
      have hka : (k == a) = false := by simp [beq_eq_false_iff_ne, Ne.symm hne]
      have hpa : (p.1 == a) = false := by simp [hp, beq_eq_false_iff_ne, Ne.symm hne]
      simp [setKey, h, lookupKey_cons, hka, hpa]
    · simp only [setKey, h, if_false, Bool.false_eq_true]
      by_cases hpa : (p.1 == a) = true
      · simp [lookupKey_cons, hpa]
      · simp [lookupKey_cons, hpa, ih]

theorem lookupKey_of_mem_nodup {κ ν : Type} [BEq κ] [LawfulBEq κ]
    (l : List (κ × ν)) (k : κ) (v : ν) (hmem : (k, v) ∈ l)
    (hnd : (l.map Prod.fst).Nodup) : lookupKey l k = some v := by
  induction l with
  | nil => cases hmem
  | cons p rest ih =>
    rcases List.mem_cons.mp hmem with h | h
    · simp [← h, lookupKey_cons]
    · rw [List.map_cons, List.nodup_cons] at hnd
      have hk : p.1 ≠ k := by
        intro he
        exact hnd.1 (he ▸ List.mem_map.mpr ⟨(k, v), h, rfl⟩)
      have : (p.1 == k) = false := by simp [beq_eq_false_iff_ne, hk]
      simp [lookupKey_cons, this]
      exact ih h hnd.2

theorem lookupKey_append_of_some {κ ν : Type} [BEq κ] (l t : List (κ × ν))
    (k : κ) (v : ν) (h : lookupKey l k = some v) : lookupKey (l ++ t) k = some v := by
  induction l with
  | nil => simp [lookupKey] at h
  | cons p rest ih =>
    by_cases hp : (p.1 == k) = true
    · simp [lookupKey_cons, hp] at h ⊢; exact h
    · simp [lookupKey_cons, hp] at h ⊢; exact ih h

theorem lookupKey_append_of_none {κ ν : Type} [BEq κ] (l t : List (κ × ν))
    (k : κ) (h : lookupKey l k = none) : lookupKey (l ++ t) k = lookupKey t k := by
  induction l with
  | nil => rfl
  | cons p rest ih =>
    by_cases hp : (p.1 == k) = true
    · simp [lookupKey_cons, hp] at h
    · simp [lookupKey_cons, hp] at h ⊢; exact ih h

theorem setKey_eq_append {κ ν : Type} [BEq κ] (l : List (κ × ν)) (k : κ) (v : ν)
    (h : ∀ p ∈ l, (p.1 == k) = false) : setKey l k v = l ++ [(k, v)] := by
  induction l with
  | nil => rfl
  | cons p rest ih =>
    have hp := h p (List.mem_cons_self p rest)
    simp [setKey, hp]
    exact ih (fun q hq => h q (List.mem_cons_of_mem _ hq))

/-! ## Lemmas about the revert field-processing loop -/

theorem renTargets_cons (cls : DocClass) (p : String × PyVal) (rest : Fields) :
    renTargets cls (p :: rest) =
      match relTarget cls p.1 with
      | some t => t :: renTargets cls rest
      | none => renTargets cls rest := by
  cases h : relTarget cls p.1 <;> simp [renTargets, List.filterMap_cons, h]

theorem mem_renTargets (cls : DocClass) (fields : Fields) (q : String × PyVal)
    (hq : q ∈ fields) (a : String) (h : relTarget cls q.1 = some a) :
    a ∈ renTargets cls fields :=
  List.mem_filterMap.mpr ⟨q, hq, h⟩

/-- Keys that the loop never deletes, and that no rename step targets, keep
their `new_fields` entry. -/
theorem processLoop_lookup_preserved (cls : DocClass) (l : Fields) (a : String) :
    ∀ (nf m2m : Fields),
    (∀ p ∈ l, p.1 = a → hasPtr a = false ∧ cls a = none) →
    (∀ p ∈ l, relTarget cls p.1 ≠ some a) →
    lookupKey (processLoop cls l nf m2m).1 a = lookupKey nf a := by
  induction l with
  | nil => intro nf m2m _ _; rfl
  | cons p rest ih =>
    intro nf m2m h1 h2
    obtain ⟨key, v⟩ := p
    have h1r : ∀ q ∈ rest, q.1 = a → hasPtr a = false ∧ cls a = none :=
      fun q hq => h1 q (List.mem_cons_of_mem _ hq)
    have h2r : ∀ q ∈ rest, relTarget cls q.1 ≠ some a :=
      fun q hq => h2 q (List.mem_cons_of_mem _ hq)
    by_cases hptr : hasPtr key = true
    · have hka : key ≠ a := by
        intro he
        have := (h1 (key, v) (List.mem_cons_self _ _) he).1
        rw [he] at hptr
        simp [hptr] at this
      simp only [processLoop, hptr, if_true]
      rw [ih _ _ h1r h2r, lookupKey_erase_ne _ _ _ (Ne.symm hka)]
    · simp only [processLoop, hptr, if_false, Bool.false_eq_true]
      cases hcls : cls key with
      | none => exact ih _ _ h1r h2r
      | some fk =>
        have hka : key ≠ a := by
          intro he
          have := (h1 (key, v) (List.mem_cons_self _ _) he).2
          rw [he] at hcls
          rw [this] at hcls
          cases hcls
        cases fk with
        | m2m =>
          rw [ih _ _ h1r h2r, lookupKey_erase_ne _ _ _ (Ne.symm hka)]
        | rel att =>
          have hatt : att ≠ a := by
            intro he
            exact h2 (key, v) (List.mem_cons_self _ _) (by simp [relTarget, hcls, he])
          rw [ih _ _ h1r h2r, lookupKey_erase_ne _ _ _ (Ne.symm hka),
            lookupKey_set_ne _ _ _ _ (Ne.symm hatt)]

/-- A snapshot key containing `"_ptr"` is absent from the final `new_fields`. -/
theorem processLoop_lookup_dropped (cls : DocClass) (l : Fields) :
    ∀ (nf m2m : Fields) (k : String) (val : PyVal),
    (k, val) ∈ l →
    (l.map Prod.fst).Nodup →
    (∀ a ∈ renTargets cls l, ∀ q ∈ l, q.1 ≠ a) →
    hasPtr k = true →
    lookupKey (processLoop cls l nf m2m).1 k = none := by
  induction l with
  | nil => intro nf m2m k val h; cases h
  | cons p rest ih =>
    intro nf m2m k val hmem hnd hfresh hptr
    obtain ⟨key, v⟩ := p
    rw [List.map_cons, List.nodup_cons] at hnd
    by_cases hk : key = k
    · subst hk
      simp only [processLoop, hptr, if_true]
      rw [processLoop_lookup_preserved cls rest key _ _ ?h1 ?h2]
      · exact lookupKey_erase_self nf key
      case h1 =>
        intro q hq hqk
        exact absurd (hqk ▸ List.mem_map.mpr ⟨q, hq, rfl⟩) hnd.1
      case h2 =>
        intro q hq hqt
        exact hfresh key (mem_renTargets cls _ q (List.mem_cons_of_mem _ hq) key hqt)
          (key, v) (List.mem_cons_self _ _) rfl
    · have hmem' : (k, val) ∈ rest := by
        rcases List.mem_cons.mp hmem with h | h
        · cases h; exact absurd rfl hk
        · exact h
      have hfresh' : ∀ a ∈ renTargets cls rest, ∀ q ∈ rest, q.1 ≠ a := by
        intro a ha q hq
        refine hfresh a ?_ q (List.mem_cons_of_mem _ hq)
        rw [renTargets_cons]
        cases relTarget cls key with
        | none => exact ha
        | some t => exact List.mem_cons_of_mem _ ha
      by_cases hptrk : hasPtr key = true
      · simp only [processLoop, hptrk, if_true]
        exact ih _ _ _ _ hmem' hnd.2 hfresh' hptr
      · simp only [processLoop, hptrk, if_false, Bool.false_eq_true]
        cases hcls : cls key with
        | none => exact ih _ _ _ _ hmem' hnd.2 hfresh' hptr
        | some fk =>
          cases fk with
          | m2m => exact ih _ _ _ _ hmem' hnd.2 hfresh' hptr
          | rel att => exact ih _ _ _ _ hmem' hnd.2 hfresh' hptr

/-- A plain scalar key (not a class attribute, no `"_ptr"`) keeps the value it
had in the initial `new_fields` copy. -/
theorem processLoop_lookup_plain (cls : DocClass) (l : Fields) (nf m2m : Fields)
    (k : String) (val : PyVal)
    (hmem : (k, val) ∈ l)
    (hfresh : ∀ a ∈ renTargets cls l, ∀ q ∈ l, q.1 ≠ a)
    (hptr : hasPtr k = false) (hcls : cls k = none) :
    lookupKey (processLoop cls l nf m2m).1 k = lookupKey nf k := by
  refine processLoop_lookup_preserved cls l k nf m2m ?_ ?_
  · intro q _ hqk
    exact ⟨hptr, hcls⟩
  · intro q hq hqt
    exact hfresh k (mem_renTargets cls _ q hq k hqt) (k, val) hmem rfl

/-- A renamed class-attribute key ends up stored under its `attname`. -/
theorem processLoop_lookup_renamed (cls : DocClass) (l : Fields) :
    ∀ (nf m2m : Fields) (k : String) (val : PyVal) (att : String),
    (k, val) ∈ l →
    (l.map Prod.fst).Nodup →
    (renTargets cls l).Nodup →
    (∀ a ∈ renTargets cls l, ∀ q ∈ l, q.1 ≠ a) →
    hasPtr k = false →
    cls k = some (.rel att) →
    lookupKey (processLoop cls l nf m2m).1 att = some val := by
  induction l with
  | nil => intro nf m2m k val att h; cases h
  | cons p rest ih =>
    intro nf m2m k val att hmem hnd hrt hfresh hptr hcls
    obtain ⟨key, v⟩ := p
    rw [List.map_cons, List.nodup_cons] at hnd
    by_cases hk : key = k
    · subst hk
      have hveq : v = val := by
        rcases List.mem_cons.mp hmem with h | h
        · cases h; rfl
        · exact absurd (List.mem_map.mpr ⟨(key, val), h, rfl⟩) hnd.1
      subst hveq
      have htgt : relTarget cls key = some att := by simp [relTarget, hcls]
      have hattmem : att ∈ renTargets cls ((key, v) :: rest) :=
        mem_renTargets cls _ (key, v) (List.mem_cons_self _ _) att htgt
      have hkatt : key ≠ att :=
        hfresh att hattmem (key, v) (List.mem_cons_self _ _)
      have hrt' : att ∉ renTargets cls rest := by
        rw [renTargets_cons, htgt] at hrt
        exact (List.nodup_cons.mp hrt).1
      simp only [processLoop, hptr, if_false, Bool.false_eq_true, hcls]
      rw [processLoop_lookup_preserved cls rest att _ _ ?h1 ?h2]
      · rw [lookupKey_erase_ne _ _ _ (Ne.symm hkatt), lookupKey_set_self]
      case h1 =>
        intro q hq hqa
        exact absurd hqa (hfresh att hattmem q (List.mem_cons_of_mem _ hq))
      case h2 =>
        intro q hq hqt
        exact hrt' (mem_renTargets cls rest q hq att hqt)
    · have hmem' : (k, val) ∈ rest := by
        rcases List.mem_cons.mp hmem with h | h
        · cases h; exact absurd rfl hk
        · exact h
      have hrt2 : (renTargets cls rest).Nodup := by
        rw [renTargets_cons] at hrt
        cases h : relTarget cls key with
        | none => rw [h] at hrt; exact hrt
        | some t => rw [h] at hrt; exact (List.nodup_cons.mp hrt).2
      have hfresh' : ∀ a ∈ renTargets cls rest, ∀ q ∈ rest, q.1 ≠ a := by
        intro a ha q hq
        refine hfresh a ?_ q (List.mem_cons_of_mem _ hq)
        rw [renTargets_cons]
        cases relTarget cls key with
        | none => exact ha
        | some t => exact List.mem_cons_of_mem _ ha
      by_cases hptrk : hasPtr key = true
      · simp only [processLoop, hptrk, if_true]
        exact ih _ _ _ _ _ hmem' hnd.2 hrt2 hfresh' hptr hcls
      · simp only [processLoop, hptrk, if_false, Bool.false_eq_true]
        cases hclsk : cls key with
        | none => exact ih _ _ _ _ _ hmem' hnd.2 hrt2 hfresh' hptr hcls
        | some fk =>
          cases fk with
          | m2m => exact ih _ _ _ _ _ hmem' hnd.2 hrt2 hfresh' hptr hcls
          | rel att2 => exact ih _ _ _ _ _ hmem' hnd.2 hrt2 hfresh' hptr hcls

/-- The loop only appends to the many-to-many dict. -/
theorem processLoop_m2m_append (cls : DocClass) (l : Fields) :
    ∀ (nf m2m : Fields), ∃ tail, (processLoop cls l nf m2m).2 = m2m ++ tail := by
  induction l with
  | nil => intro nf m2m; exact ⟨[], by simp [processLoop]⟩
  | cons p rest ih =>
    intro nf m2m
    obtain ⟨key, v⟩ := p
    by_cases hptr : hasPtr key = true
    · simpa only [processLoop, hptr, if_true] using ih _ _
    · simp only [processLoop, hptr, if_false, Bool.false_eq_true]
      cases hcls : cls key with
      | none => exact ih _ _
      | some fk =>
        cases fk with
        | m2m =>
          obtain ⟨t, ht⟩ := ih (eraseKey nf key) (m2m ++ [(key, v)])
          exact ⟨(key, v) :: t, by simpa [List.append_assoc] using ht⟩
        | rel att => exact ih _ _

/-- A many-to-many key's snapshot value is the one found in the extracted
dict. -/
theorem processLoop_m2m_lookup (cls : DocClass) (l : Fields) :
    ∀ (nf m2m : Fields) (k : String) (val : PyVal),
    (k, val) ∈ l →
    (l.map Prod.fst).Nodup →
    hasPtr k = false →
    cls k = some .m2m →
    lookupKey m2m k = none →
    lookupKey (processLoop cls l nf m2m).2 k = some val := by
  induction l with
  | nil => intro nf m2m k val h; cases h
  | cons p rest ih =>
    intro nf m2m k val hmem hnd hptr hcls hm2m
    obtain ⟨key, v⟩ := p
    rw [List.map_cons, List.nodup_cons] at hnd
    by_cases hk : key = k
    · subst hk
      have hveq : v = val := by
        rcases List.mem_cons.mp hmem with h | h
        · cases h; rfl
        · exact absurd (List.mem_map.mpr ⟨(key, val), h, rfl⟩) hnd.1
      subst hveq
      simp only [processLoop, hptr, if_false, Bool.false_eq_true, hcls]
      obtain ⟨t, ht⟩ := processLoop_m2m_append cls rest (eraseKey nf key) (m2m ++ [(key, v)])
      rw [ht, List.append_assoc]
      refine lookupKey_append_of_none _ _ _ hm2m |>.trans ?_
      exact lookupKey_append_of_some _ _ _ _ (by simp [lookupKey_cons])
    · have hmem' : (k, val) ∈ rest := by
        rcases List.mem_cons.mp hmem with h | h
        · cases h; exact absurd rfl hk
        · exact h
      by_cases hptrk : hasPtr key = true
      · simp only [processLoop, hptrk, if_true]
        exact ih _ _ _ _ hmem' hnd.2 hptr hcls hm2m
      · simp only [processLoop, hptrk, if_false, Bool.false_eq_true]
        cases hclsk : cls key with
        | none => exact ih _ _ _ _ hmem' hnd.2 hptr hcls hm2m
        | some fk =>
          cases fk with
          | m2m =>
            refine ih _ _ _ _ hmem' hnd.2 hptr hcls ?_
            rw [lookupKey_append_of_none _ _ _ hm2m]
            simp [lookupKey_cons, lookupKey, beq_eq_false_iff_ne, hk]
          | rel att => exact ih _ _ _ _ hmem' hnd.2 hptr hcls hm2m

/-- Reduction of the handler on its success path. -/
theorem revert_success_eq (req : Request) (env : RevertEnv) (v : Version)
    (cls : DocClass) (ct : Int) (idStr u : String)
    (hajax : req.is_ajax = true) (hpost : postFalsy req = false)
    (hid : postLookup req "id" = some idStr)
    (hurl : postLookup req "url_title" = some u)
    (hdoc : env.docOk = true)
    (hfind : findRevertVersion idStr env.versions = .ok (some v))
    (hplug : env.pluginRevertFails = false)
    (hct : lookupKey v.field_dict "polymorphic_ctype" = some (.int ct))
    (hcls : env.ctypes ct = some cls) :
    revert req env =
      .success (processFields cls (eraseKey v.field_dict "polymorphic_ctype")).1
        (processFields cls (eraseKey v.field_dict "polymorphic_ctype")).2
        ("reverted to revision \"" ++ v.comment ++ "\"") := by
  unfold revert
  rw [hajax, hpost, hid, hurl, hdoc]
  simp [hfind, hplug, hct, hcls]

/-- The linear scan returns no version when the id parses but matches no
stored version's primary key. -/
theorem findRevertVersion_none (idStr : String) (n : Int) (vs : List Version)
    (hparse : pyInt idStr = some n) (h : ∀ v ∈ vs, v.pk ≠ n) :
    findRevertVersion idStr vs = .ok none := by
  induction vs with
  | nil => rfl
  | cons v rest ih =>
    have hv : (v.pk == n) = false := by
      simp [beq_eq_false_iff_ne]
      exact h v (List.mem_cons_self _ _)
    simp only [findRevertVersion, hparse, hv, Bool.false_eq_true, if_false]
    exact ih (fun w hw => h w (List.mem_cons_of_mem _ hw))

/-- C1: a successful revert leaves the persisted scalar field values equal to
the snapshot values (plain keys under their own name, renamed class-attribute
keys under their `attname`), drops every inheritance-pointer key (any key
containing `"_ptr"`), and resets every extracted many-to-many relation to
exactly the snapshot membership — for every pre-revert state `st`, i.e. not
unioned with the previous membership. -/
theorem revert_restores_snapshot
    (req : Request) (env : RevertEnv) (st : DocState)
    (v : Version) (cls : DocClass) (ct : Int) (idStr u : String) (fields : Fields)
    (hajax : req.is_ajax = true) (hpost : postFalsy req = false)
    (hid : postLookup req "id" = some idStr)
    (hurl : postLookup req "url_title" = some u)
    (hdoc : env.docOk = true)
    (hfind : findRevertVersion idStr env.versions = .ok (some v))
    (hplug : env.pluginRevertFails = false)
    (hct : lookupKey v.field_dict "polymorphic_ctype" = some (.int ct))
    (hcls : env.ctypes ct = some cls)
    (hfields : fields = eraseKey v.field_dict "polymorphic_ctype")
    (hnd : (fields.map Prod.fst).Nodup)
    (hrt : (renTargets cls fields).Nodup)
    (hfresh : ∀ a ∈ renTargets cls fields, ∀ q ∈ fields, q.1 ≠ a) :
    ∀ (k : String) (val : PyVal), (k, val) ∈ fields →
      (hasPtr k = true → (applyRevertResult (revert req env) st).scalars k = none) ∧
      (hasPtr k = false → cls k = none →
        (applyRevertResult (revert req env) st).scalars k = some val) ∧
      (hasPtr k = false → ∀ att, cls k = some (.rel att) →
        (applyRevertResult (revert req env) st).scalars att = some val) ∧
      (hasPtr k = false → ∀ xs, cls k = some .m2m → val = .ids xs →
        (applyRevertResult (revert req env) st).m2m k = xs) := by
  intro k val hkmem
  have hrev := revert_success_eq req env v cls ct idStr u hajax hpost hid hurl
    hdoc hfind hplug hct hcls
  rw [← hfields] at hrev
  rw [hrev]
  refine ⟨?_, ?_, ?_, ?_⟩
  · intro hptr
    show lookupKey (processLoop cls fields fields []).1 k = none
    exact processLoop_lookup_dropped cls fields fields [] k val hkmem hnd hfresh hptr
  · intro hptr hnone
    show lookupKey (processLoop cls fields fields []).1 k = some val
    rw [processLoop_lookup_plain cls fields fields [] k val hkmem hfresh hptr hnone]
    exact lookupKey_of_mem_nodup fields k val hkmem hnd
  · intro hptr att hrel
    show lookupKey (processLoop cls fields fields []).1 att = some val
    exact processLoop_lookup_renamed cls fields fields [] k val att hkmem hnd hrt
      hfresh hptr hrel
  · intro hptr xs hm2m hval
    show restoreM2M st.m2m (processLoop cls fields fields []).2 k = xs
    have hl := processLoop_m2m_lookup cls fields fields [] k val hkmem hnd hptr hm2m rfl
    rw [restoreM2M, hl, hval]

/-- Witness for C1 at a concrete snapshot: a plain scalar (`text`), a dropped
parent pointer (`document_ptr_id`), a renamed foreign key (`author` stored
under `author_id`) and a many-to-many relation (`groups`). -/
theorem revert_restores_snapshot_witness :
    (applyRevertResult (revert reqW envW) stW).scalars "text" = some (.str "hello") ∧
    (applyRevertResult (revert reqW envW) stW).scalars "document_ptr_id" = none ∧
    (applyRevertResult (revert reqW envW) stW).scalars "author_id" = some (.int 5) ∧
    (applyRevertResult (revert reqW envW) stW).m2m "groups" = [1, 2] := by
  have h := revert_restores_snapshot reqW envW stW vW clsW 7 "12" "doc" fieldsW
    rfl rfl rfl rfl rfl (by rfl) rfl (by rfl) rfl rfl (by decide) (by decide)
    (by decide)
  exact ⟨(h "text" (.str "hello") (by decide)).2.1 rfl rfl,
    (h "document_ptr_id" (.int 3) (by decide)).1 rfl,
    (h "author" (.int 5) (by decide)).2.2.1 rfl "author_id" rfl,
    (h "groups" (.ids [1, 2]) (by decide)).2.2.2 rfl [1, 2] rfl rfl⟩

/-- C2: an id that parses but matches none of the stored versions yields
`BadRequest` and leaves the document's persisted state untouched. -/
theorem revert_unknown_id_badRequest
    (req : Request) (env : RevertEnv) (st : DocState) (idStr u : String) (n : Int)
    (hajax : req.is_ajax = true) (hpost : postFalsy req = false)
    (hid : postLookup req "id" = some idStr)
    (hurl : postLookup req "url_title" = some u)
    (hdoc : env.docOk = true)
    (hparse : pyInt idStr = some n)
    (hnomatch : ∀ v ∈ env.versions, v.pk ≠ n) :
    revert req env = .badRequest "Could not find document" ∧
    applyRevertResult (revert req env) st = st := by
  have hfind := findRevertVersion_none idStr n env.versions hparse hnomatch
  have hrev : revert req env = .badRequest "Could not find document" := by
    unfold revert
    rw [hajax, hpost, hid, hurl, hdoc]
    simp [hfind]
  exact ⟨hrev, by rw [hrev]; rfl⟩

theorem revert_unknown_id_badRequest_witness :
    revert ⟨true, "POST", some [("id", "99"), ("url_title", "doc")], []⟩ envW = .badRequest "Could not find document" ∧
    applyRevertResult
      (revert ⟨true, "POST", some [("id", "99"), ("url_title", "doc")], []⟩ envW) stW = stW :=
  revert_unknown_id_badRequest _ envW stW "99" "doc" 99 rfl rfl rfl rfl rfl rfl
    (by decide)

/-- C10 counterexample: with an empty stored-version sequence the handler
returns `BadRequest` for a version id that integer conversion rejects — the
conversion exception is not raised and `BadRequest` is not limited to
well-formed ids. -/
theorem revert_malformed_id_counterexample :
    revert ⟨true, "POST", some [("id", "abc"), ("url_title", "d")], []⟩
        ⟨[], fun _ => none, true, false⟩ = .badRequest "Could not find document" ∧
    pyInt "abc" = none := by
  constructor
  · rfl
  · rfl

/-- C10 as amended: the conversion of the version id happens inside the scan
loop, so a malformed id raises the uncaught conversion error exactly when at
least one stored version is scanned; with no stored versions the handler
returns `BadRequest` whatever the id string is. -/
theorem revert_malformed_id_amended :
    (∀ (req : Request) (env : RevertEnv) (idStr u : String),
      req.is_ajax = true → postFalsy req = false →
      postLookup req "id" = some idStr → postLookup req "url_title" = some u →
      env.docOk = true → pyInt idStr = none → env.versions ≠ [] →
      revert req env = .exn "ValueError") ∧
    (∀ (req : Request) (env : RevertEnv) (idStr u : String),
      req.is_ajax = true → postFalsy req = false →
      postLookup req "id" = some idStr → postLookup req "url_title" = some u →
      env.docOk = true → env.versions = [] →
      revert req env = .badRequest "Could not find document") := by
  constructor
  · intro req env idStr u hajax hpost hid hurl hdoc hparse hne
    have hfind : findRevertVersion idStr env.versions = .error "ValueError" := by
      cases hv : env.versions with
      | nil => exact absurd hv hne
      | cons w rest => simp only [findRevertVersion, hparse]
    unfold revert
    rw [hajax, hpost, hid, hurl, hdoc]
    simp [hfind]
  · intro req env idStr u hajax hpost hid hurl hdoc hnil
    have hfind : findRevertVersion idStr env.versions = .ok none := by
      rw [hnil]; rfl
    unfold revert
    rw [hajax, hpost, hid, hurl, hdoc]
    simp [hfind]

theorem revert_malformed_id_amended_witness :
    revert ⟨true, "POST", some [("id", "abc"), ("url_title", "d")], []⟩ envW = .exn "ValueError" ∧
    revert ⟨true, "POST", some [("id", "abc"), ("url_title", "d")], []⟩
      ⟨[], fun _ => none, true, false⟩ = .badRequest "Could not find document" := by
  obtain ⟨h1, h2⟩ := revert_malformed_id_amended
  exact ⟨h1 _ envW "abc" "d" rfl rfl rfl rfl rfl rfl (by decide),
    h2 _ _ "abc" "d" rfl rfl rfl rfl rfl rfl⟩

/-! ## The attachment reorder batch (C3) -/

/-- Running the reorder loop on a batch whose first part succeeds equals
running it on the remaining part from the partially updated database. -/
theorem orderLoop_append (perms : Perms) (pre : List (String × String)) :
    ∀ (tail : List (String × String)) (db db' : List Attachment),
    orderApply perms pre db = some db' →
    orderLoop perms (pre ++ tail) db = orderLoop perms tail db' := by
  induction pre with
  | nil =>
    intro tail db db' h
    cases h
    rfl
  | cons e rest ih =>
    intro tail db db' h
    obtain ⟨pk, idx⟩ := e
    rw [List.cons_append]
    cases hpk : pyInt pk with
    | none => simp only [orderApply, hpk] at h; cases h
    | some pkv =>
      simp only [orderApply, hpk] at h
      cases hf : db.find? (fun a => a.id == pkv) with
      | none => simp only [hf] at h; cases h
      | some att =>
        simp only [hf] at h
        by_cases hperm : perms.canChange att.docId = true
        · rw [if_neg (by simp [hperm])] at h
          cases hidx : pyInt idx with
          | none => simp only [hidx] at h; cases h
          | some idxv =>
            simp only [hidx] at h
            show orderLoop perms ((pk, idx) :: (rest ++ tail)) db = _
            rw [orderLoop]
            simp only [hpk, hf, if_neg (show ¬((!perms.canChange att.docId) = true) by simp [hperm]), hidx]
            exact ih tail _ db' h
        · rw [if_pos (by simp at hperm ⊢; exact hperm)] at h
          cases h

/-- C3: when an entry of the reorder batch is denied, the handler stops with
`Forbidden`; the updates of the entries before it are already committed and
the denied entry and everything after it are not applied — the final database
is exactly the prefix-updated one. -/
theorem reorder_partial_commit_on_denial
    (req : Request) (perms : Perms) (db db' : List Attachment)
    (pre post : List (String × String)) (pk0 idx0 : String) (pkv0 : Int)
    (att0 : Attachment)
    (hajax : req.is_ajax = true)
    (hdata : req.postData = some (pre ++ (pk0, idx0) :: post))
    (hpre : orderApply perms pre db = some db')
    (hpk : pyInt pk0 = some pkv0)
    (hfind : db'.find? (fun a => a.id == pkv0) = some att0)
    (hdeny : perms.canChange att0.docId = false) :
    update_attachment_order req perms db = (.forbidden, db') := by
  unfold update_attachment_order
  rw [hdata, hajax]
  simp only [Bool.not_true, Bool.false_eq_true, if_false]
  rw [orderLoop_append perms pre _ db db' hpre]
  rw [orderLoop]
  simp only [hpk, hfind, hdeny, Bool.not_false, if_true]

theorem reorder_partial_commit_on_denial_witness :
    update_attachment_order
        ⟨true, "POST", some [("1", "10"), ("2", "20"), ("3", "30")], []⟩
        ⟨fun _ => true, fun d => d == 1⟩
        [⟨1, 1, "a", "fa", 0, false⟩, ⟨2, 2, "b", "fb", 1, false⟩,
         ⟨3, 1, "c", "fc", 2, false⟩] =
      (.forbidden,
        [⟨1, 1, "a", "fa", 10, false⟩, ⟨2, 2, "b", "fb", 1, false⟩,
         ⟨3, 1, "c", "fc", 2, false⟩]) := by
  have h := reorder_partial_commit_on_denial
    ⟨true, "POST", some [("1", "10"), ("2", "20"), ("3", "30")], []⟩
    ⟨fun _ => true, fun d => d == 1⟩
    [⟨1, 1, "a", "fa", 0, false⟩, ⟨2, 2, "b", "fb", 1, false⟩,
     ⟨3, 1, "c", "fc", 2, false⟩]
    [⟨1, 1, "a", "fa", 10, false⟩, ⟨2, 2, "b", "fb", 1, false⟩,
     ⟨3, 1, "c", "fc", 2, false⟩]
    [("1", "10")] [("3", "30")] "2" "20" 2 ⟨2, 2, "b", "fb", 1, false⟩
    rfl rfl (by rfl) rfl (by rfl) rfl
  exact h


/-! ## Download permission gating (C4) and request-shape gating (C5) -/

/-- C4: the download path consults only the view permission of the owning
document — a requester with view permission receives the file whatever their
change permission is, and a requester with neither view nor change permission
is refused with `Forbidden`. -/
theorem download_gated_on_view_permission
    (req : Request) (mediaRoot : String) (db : List Attachment)
    (att : Attachment) (s : String) (pkv : Int)
    (canView canChange : Int → Bool)
    (hm : req.method = "GET")
    (hid : getLookup req "attachment_id" = some s)
    (hparse : pyInt s = some pkv)
    (hfind : db.find? (fun a => a.id == pkv) = some att) :
    (canView att.docId = true →
      download_attachment req ⟨canView, canChange⟩ mediaRoot db =
        .file (mediaRoot ++ "/" ++ att.file) (!hasEmbedFlag req) att.displayname) ∧
    (canView att.docId = false → canChange att.docId = false →
      download_attachment req ⟨canView, canChange⟩ mediaRoot db = .forbidden) := by
  constructor
  · intro hv
    unfold download_attachment
    rw [hm]
    simp [hid, hparse, hfind, hv]
  · intro hv _
    unfold download_attachment
    rw [hm]
    simp [hid, hparse, hfind, hv]

theorem download_gated_on_view_permission_witness :
    download_attachment ⟨false, "GET", none, [("attachment_id", "5")]⟩
        ⟨fun _ => true, fun _ => false⟩ "media" [⟨5, 1, "a.pdf", "files/a.pdf", 0, false⟩] =
      .file "media/files/a.pdf" true "a.pdf" ∧
    download_attachment ⟨false, "GET", none, [("attachment_id", "5")]⟩
        ⟨fun _ => false, fun _ => false⟩ "media" [⟨5, 1, "a.pdf", "files/a.pdf", 0, false⟩] =
      .forbidden := by
  have h1 := (download_gated_on_view_permission
    ⟨false, "GET", none, [("attachment_id", "5")]⟩ "media"
    [⟨5, 1, "a.pdf", "files/a.pdf", 0, false⟩] ⟨5, 1, "a.pdf", "files/a.pdf", 0, false⟩
    "5" 5 (fun _ => true) (fun _ => false) rfl rfl rfl rfl).1 rfl
  have h2 := (download_gated_on_view_permission
    ⟨false, "GET", none, [("attachment_id", "5")]⟩ "media"
    [⟨5, 1, "a.pdf", "files/a.pdf", 0, false⟩] ⟨5, 1, "a.pdf", "files/a.pdf", 0, false⟩
    "5" 5 (fun _ => false) (fun _ => false) rfl rfl rfl rfl).2 rfl rfl
  exact ⟨h1, h2⟩

/-- C5 counterexample: a non-GET request to the download endpoint is answered
with `BadRequest`, not with `NotFound` as the claim states. -/
theorem download_nonget_badRequest_not_notFound :
    download_attachment ⟨true, "POST", some [], []⟩ ⟨fun _ => true, fun _ => true⟩
        "media" [] = AttachResponse.badRequest ∧
    AttachResponse.badRequest ≠ AttachResponse.notFound := by
  exact ⟨rfl, by decide⟩

/-- C5 as amended: the ajax-gated handlers (revert, attachment create, delete,
reorder, image listing and flag toggle) answer a disallowed request shape with
`NotFound`; the download endpoint is the exception — it answers a non-GET
request with `BadRequest`.  The reorder guard tests `request.POST is None` (an
absent form dict) and the ajax flag, not the method. -/
theorem request_shape_gating :
    (∀ (req : Request) (perms : Perms) (mr : String) (db : List Attachment),
      req.method ≠ "GET" → download_attachment req perms mr db = .badRequest) ∧
    (∀ (req : Request) (perms : Perms) (db : List Attachment),
      req.postData = none ∨ req.is_ajax = false →
      update_attachment_order req perms db = (.notFound, db)) ∧
    (∀ (req : Request) (env : RevertEnv),
      req.is_ajax = false ∨ postFalsy req = true → revert req env = .notFound) ∧
    (∀ (req : Request) (perms : Perms) (docs : List Int) (supported : List String)
      (did : Int) (db : List Attachment),
      req.is_ajax = false → get_attachments req perms docs supported did db = .notFound) ∧
    (∀ (req : Request) (perms : Perms) (db : List Attachment),
      postFalsy req = true ∨ req.is_ajax = false →
      change_attachment_no_direct_download req perms db = (.notFound, db)) ∧
    (∀ (req : Request) (perms : Perms) (docs : List Int) (upload : Option Int),
      req.is_ajax = false ∨ req.method ≠ "POST" →
      create_attachment req perms docs upload = .notFound) ∧
    (∀ (req : Request) (perms : Perms) (db : List Attachment),
      req.is_ajax = false ∨ req.method ≠ "POST" →
      delete_attachment req perms db = (.notFound, db)) := by
  refine ⟨?_, ?_, ?_, ?_, ?_, ?_, ?_⟩
  · intro req perms mr db h
    unfold download_attachment
    rw [if_pos h]
  · intro req perms db h
    unfold update_attachment_order
    rcases h with h | h
    · rw [h]
    · cases hp : req.postData with
      | none => rfl
      | some data => simp [h]
  · intro req env h
    unfold revert
    rcases h with h | h
    · rw [h]; rfl
    · rw [h]; simp
  · intro req perms docs supported did db h
    unfold get_attachments
    rw [h]; rfl
  · intro req perms db h
    unfold change_attachment_no_direct_download
    rcases h with h | h
    · rw [h]; rfl
    · rw [h]; simp
  · intro req perms docs upload h
    unfold create_attachment
    rcases h with h | h
    · rw [h]; rfl
    · rw [if_pos (by simp [h])]
  · intro req perms db h
    unfold delete_attachment
    rcases h with h | h
    · rw [h]; rfl
    · rw [if_neg (by simp [h])]

theorem request_shape_gating_witness :
    download_attachment ⟨true, "POST", some [], []⟩ ⟨fun _ => false, fun _ => false⟩ "m" [] =
      .badRequest ∧
    update_attachment_order ⟨false, "POST", some [], []⟩ ⟨fun _ => false, fun _ => false⟩ [] =
      (.notFound, []) ∧
    revert ⟨false, "POST", some [("id", "1")], []⟩ ⟨[], fun _ => none, true, false⟩ =
      .notFound ∧
    get_attachments ⟨false, "GET", none, []⟩ ⟨fun _ => false, fun _ => false⟩ [] [] 1 [] =
      .notFound ∧
    change_attachment_no_direct_download ⟨true, "POST", some [], []⟩
      ⟨fun _ => false, fun _ => false⟩ [] = (.notFound, []) ∧
    create_attachment ⟨true, "PUT", some [], []⟩ ⟨fun _ => false, fun _ => false⟩ [] none =
      .notFound ∧
    delete_attachment ⟨true, "GET", some [], []⟩ ⟨fun _ => false, fun _ => false⟩ [] =
      (.notFound, []) := by
  obtain ⟨h1, h2, h3, h4, h5, h6, h7⟩ := request_shape_gating
  exact ⟨h1 _ _ _ _ (by decide), h2 _ _ _ (Or.inr rfl), h3 _ _ (Or.inl rfl),
    h4 _ _ _ _ _ _ rfl, h5 _ _ _ (Or.inl rfl), h6 _ _ _ _ (Or.inr (by decide)),
    h7 _ _ _ (Or.inr (by decide))⟩

/-! ## Minutes listing (C8) and creation (C9) -/

/-- C8 (code bug): the listing's permission filter calls
`request.user.has_perm(m, MinutesDocument.get_view_permission())`, i.e. the
document instance where the permission codename belongs and vice versa.  A
non-string permission argument never grants, so the listing is empty for
every user and every document set — in particular for a user who does hold
the view permission (second conjunct, arguments in the correct order). -/
theorem minutes_list_permission_arguments_swapped :
    (∀ (grants : List (String × Int)) (docs : List MinutesDoc),
      minutes_list grants docs = []) ∧
    has_perm [(minutesViewPermission, 1)] (.permStr minutesViewPermission) (.docObj 1) = true ∧
    has_perm [(minutesViewPermission, 1)] (.docObj 1) (.permStr minutesViewPermission) = false := by
  refine ⟨?_, by decide, by decide⟩
  intro grants docs
  unfold minutes_list
  have hfold : ∀ (ds : List MinutesDoc) (acc : List (Int × List MinutesDoc)),
      ds.foldl (fun ys m =>
        if !has_perm grants (.docObj m.id) (.permStr minutesViewPermission) then ys
        else addToYear ys m.year m) acc = acc := by
    intro ds
    induction ds with
    | nil => intro acc; rfl
    | cons d rest ih => intro acc; rw [List.foldl_cons, show
        (if !has_perm grants (.docObj d.id) (.permStr minutesViewPermission) then acc
         else addToYear acc d.year d) = acc from rfl, ih]
  rw [hfold]
  rfl

/-- C9: an authorized create request at timestamp `now` produces a row whose
title is the template applied to `now` (so it contains the timestamp), whose
url-title is the slugified title, whose author and moderator are the
requester, and the handler's response is the edit screen of that same
url-title. -/
theorem minutes_create_title_slug_owner (user : Int) (now : String)
    (purge : List MinutesRow → List MinutesRow) (db : List MinutesRow) :
    (minutes_create true user now purge db).1 =
      .editPage (slugify (newMinutesTitle now)) ∧
    (⟨user, slugify (newMinutesTitle now), newMinutesTitle now, user⟩ : MinutesRow) ∈
      (minutes_create true user now purge db).2 ∧
    newMinutesTitle now = "New minutes document from " ++ now := by
  refine ⟨rfl, ?_, rfl⟩
  show (⟨user, slugify (newMinutesTitle now), newMinutesTitle now, user⟩ : MinutesRow) ∈
    (if (⟨user, slugify (newMinutesTitle now), newMinutesTitle now, user⟩ : MinutesRow) ∈ purge db
     then purge db
     else purge db ++ [⟨user, slugify (newMinutesTitle now), newMinutesTitle now, user⟩])
  split
  · assumption
  · simp


/-! ## Image-attachment listing (C6) -/

theorem buildImageMap_go (supported : List String) :
    ∀ (atts : List Attachment) (acc : List (Int × String)),
    (∀ a ∈ atts, ∀ p ∈ acc, p.1 ≠ a.id) →
    (atts.map (fun a => a.id)).Nodup →
    atts.foldl (fun data a =>
      if supported.contains (extOf a.displayname) then setKey data a.id a.displayname
      else data) acc =
    acc ++ atts.filterMap (fun a =>
      if supported.contains (extOf a.displayname) then some (a.id, a.displayname)
      else none) := by
  intro atts
  induction atts with
  | nil => intro acc _ _; simp
  | cons a rest ih =>
    intro acc hfresh hnd
    rw [List.map_cons, List.nodup_cons] at hnd
    rw [List.foldl_cons, List.filterMap_cons]
    have hfr : ∀ p ∈ acc, (p.1 == a.id) = false := by
      intro p hp
      simp [beq_eq_false_iff_ne]
      exact hfresh a (List.mem_cons_self _ _) p hp
    by_cases hc : supported.contains (extOf a.displayname) = true
    · have hfr2 : ∀ b ∈ rest, ∀ p ∈ acc ++ [(a.id, a.displayname)], p.1 ≠ b.id := by
        intro b hb p hp
        rcases List.mem_append.mp hp with h | h
        · exact hfresh b (List.mem_cons_of_mem _ hb) p h
        · rcases List.mem_singleton.mp h with rfl
          intro he
          refine hnd.1 ?_
          rw [show a.id = b.id from he]
          exact List.mem_map.mpr ⟨b, hb, rfl⟩
      simp only [hc, if_true]
      rw [setKey_eq_append acc a.id a.displayname hfr]
      rw [ih (acc ++ [(a.id, a.displayname)]) hfr2 hnd.2]
      simp [List.append_assoc]
    · have hfr2 : ∀ b ∈ rest, ∀ p ∈ acc, p.1 ≠ b.id :=
        fun b hb p hp => hfresh b (List.mem_cons_of_mem _ hb) p hp
      simp only [hc, if_false, Bool.false_eq_true]
      exact ih acc hfr2 hnd.2

/-- C6: the image listing returns the id-to-display-name map of exactly those
attachments of the document whose display name's lowered last dot-segment is
in the configured allow-list. -/
theorem image_listing_filters_by_extension
    (req : Request) (perms : Perms) (docs : List Int) (supported : List String)
    (did : Int) (db : List Attachment)
    (hajax : req.is_ajax = true)
    (hdoc : docs.contains did = true)
    (hperm : perms.canChange did = true)
    (hnd : ((db.filter (fun a => a.docId == did)).map (fun a => a.id)).Nodup) :
    get_attachments req perms docs supported did db =
      .jsonMap (buildImageMap supported (db.filter (fun a => a.docId == did))) ∧
    (∀ (i : Int) (nm : String),
      (i, nm) ∈ buildImageMap supported (db.filter (fun a => a.docId == did)) ↔
        ∃ a ∈ db, a.docId = did ∧ a.id = i ∧ a.displayname = nm ∧
          supported.contains (extOf a.displayname) = true) := by
  constructor
  · unfold get_attachments
    rw [hajax, hdoc, hperm]
    simp
  · intro i nm
    rw [buildImageMap,
      buildImageMap_go supported _ [] (by intro a _ p hp; cases hp) hnd,
      List.nil_append, List.mem_filterMap]
    constructor
    · rintro ⟨a, ha, hfa⟩
      rw [List.mem_filter] at ha
      by_cases hc : supported.contains (extOf a.displayname) = true
      · rw [if_pos hc] at hfa
        have h1 : a.id = i := congrArg Prod.fst (Option.some.inj hfa)
        have h2 : a.displayname = nm := congrArg Prod.snd (Option.some.inj hfa)
        exact ⟨a, ha.1, by simpa using ha.2, h1, h2, hc⟩
      · rw [if_neg hc] at hfa
        cases hfa
    · rintro ⟨a, ha, hdid, hai, hnm, hc⟩
      refine ⟨a, List.mem_filter.mpr ⟨ha, by simp [hdid]⟩, ?_⟩
      rw [if_pos hc, hai, hnm]

theorem image_listing_filters_by_extension_witness :
    get_attachments ⟨true, "GET", none, []⟩ ⟨fun _ => true, fun _ => true⟩ [7]
        ["png", "jpg"] 7
        [⟨1, 7, "photo.PNG", "f1", 0, false⟩, ⟨2, 7, "notes.txt", "f2", 1, false⟩] =
      .jsonMap [(1, "photo.PNG")] := by
  have h := (image_listing_filters_by_extension ⟨true, "GET", none, []⟩
    ⟨fun _ => true, fun _ => true⟩ [7] ["png", "jpg"] 7
    [⟨1, 7, "photo.PNG", "f1", 0, false⟩, ⟨2, 7, "notes.txt", "f2", 1, false⟩]
    rfl rfl rfl (by decide)).1
  exact h.trans (by decide)

/-! ## The no-direct-download flag and the minutes view page (C7) -/

theorem find?_dbSave (db : List Attachment) (att newAtt : Attachment) (pkv : Int)
    (hfind : db.find? (fun a => a.id == pkv) = some att)
    (hid : newAtt.id = att.id) :
    (dbSave db newAtt).find? (fun a => a.id == pkv) = some newAtt := by
  have hpk : att.id = pkv := by
    have := List.find?_some hfind
    simpa using this
  induction db with
  | nil => cases hfind
  | cons b rest ih =>
    by_cases hb : (b.id == pkv) = true
    · simp only [List.find?_cons, hb] at hfind
      have hbatt : b = att := Option.some.inj hfind
      have hrepl : (b.id == newAtt.id) = true := by
        simp [hbatt, hid]
      have hnew : (newAtt.id == pkv) = true := by simp [hid, hpk]
      simp only [dbSave, List.map_cons, hrepl, if_true, List.find?_cons, hnew]
    · have hb' : (b.id == pkv) = false := by simpa using hb
      simp only [List.find?_cons, hb'] at hfind
      have hbne : (b.id == newAtt.id) = false := by
        simp at hb' ⊢
        rw [hid, hpk]
        exact hb'
      simp only [dbSave, List.map_cons, hbne, if_false, Bool.false_eq_true,
        List.find?_cons, hb']
      exact ih hfind

theorem mem_dbSave (db : List Attachment) (newAtt x : Attachment)
    (hx : x ∈ dbSave db newAtt) :
    x = newAtt ∨ (x ∈ db ∧ (x.id == newAtt.id) = false) := by
  rw [dbSave, List.mem_map] at hx
  obtain ⟨b, hb, hbe⟩ := hx
  by_cases h : (b.id == newAtt.id) = true
  · left
    rw [← hbe, if_pos h]
  · right
    rw [← hbe, if_neg h]
    exact ⟨hb, by simpa using h⟩

/-- C7: after the flag-toggle endpoint sets `no_direct_download` to true on an
attachment, the minutes view page's attachment list — which is exactly the
document's flag-false attachments ordered by index — excludes it, while the
explicit download endpoint still serves it to a requester with view
permission. -/
theorem no_direct_download_hides_from_view
    (req reqD : Request) (perms : Perms) (db : List Attachment)
    (idStr s : String) (pkv : Int) (att : Attachment) (mediaRoot : String)
    (hfal : postFalsy req = false) (hajax : req.is_ajax = true)
    (hid : postLookup req "id" = some idStr)
    (hflag : postLookup req "no_direct_download" = some "true")
    (hparse : pyInt idStr = some pkv)
    (hfind : db.find? (fun a => a.id == pkv) = some att)
    (hchg : perms.canChange att.docId = true)
    (hview : perms.canView att.docId = true)
    (hmeth : reqD.method = "GET")
    (hgid : getLookup reqD "attachment_id" = some s)
    (hsparse : pyInt s = some pkv) :
    (change_attachment_no_direct_download req perms db).1 = .ok ∧
    (∀ x ∈ minutes_view_attachments att.docId
        (change_attachment_no_direct_download req perms db).2, x.id ≠ att.id) ∧
    List.Perm
      (minutes_view_attachments att.docId
        (change_attachment_no_direct_download req perms db).2)
      ((change_attachment_no_direct_download req perms db).2.filter
        (fun a => a.docId == att.docId && !a.no_direct_download)) ∧
    List.Sorted idxLE
      (minutes_view_attachments att.docId
        (change_attachment_no_direct_download req perms db).2) ∧
    download_attachment reqD perms mediaRoot
        (change_attachment_no_direct_download req perms db).2 =
      .file (mediaRoot ++ "/" ++ att.file) (!hasEmbedFlag reqD) att.displayname := by
  have hres : change_attachment_no_direct_download req perms db =
      (.ok, dbSave db { att with no_direct_download := true }) := by
    unfold change_attachment_no_direct_download
    rw [hfal, hajax]
    simp [hid, hflag, hparse, hfind, hchg, jsonLoadsBool]
  rw [hres]
  refine ⟨rfl, ?_, ?_, ?_, ?_⟩
  · intro x hx
    rw [minutes_view_attachments, List.mem_insertionSort, List.mem_filter] at hx
    obtain ⟨hxmem, hxpred⟩ := hx
    have hxflag : x.no_direct_download = false := by
      simp at hxpred
      exact hxpred.2
    rcases mem_dbSave db _ x hxmem with h | h
    · rw [h] at hxflag
      cases hxflag
    · intro he
      have : (x.id == Attachment.id { att with no_direct_download := true }) = true := by
        simp [he]
      rw [this] at h
      cases h.2
  · exact List.perm_insertionSort idxLE _
  · exact List.sorted_insertionSort idxLE _
  · have hf := find?_dbSave db att { att with no_direct_download := true } pkv hfind rfl
    unfold download_attachment
    rw [hmeth]
    simp [hgid, hsparse, hf, hview]

theorem no_direct_download_hides_from_view_witness :
    (change_attachment_no_direct_download
        ⟨true, "POST", some [("id", "5"), ("no_direct_download", "true")], []⟩
        ⟨fun _ => true, fun _ => true⟩ [⟨5, 1, "a.pdf", "files/a.pdf", 0, false⟩]).1 = .ok ∧
    minutes_view_attachments 1
        (change_attachment_no_direct_download
          ⟨true, "POST", some [("id", "5"), ("no_direct_download", "true")], []⟩
          ⟨fun _ => true, fun _ => true⟩ [⟨5, 1, "a.pdf", "files/a.pdf", 0, false⟩]).2 = [] ∧
    download_attachment ⟨false, "GET", none, [("attachment_id", "5")]⟩
        ⟨fun _ => true, fun _ => true⟩ "media"
        (change_attachment_no_direct_download
          ⟨true, "POST", some [("id", "5"), ("no_direct_download", "true")], []⟩
          ⟨fun _ => true, fun _ => true⟩ [⟨5, 1, "a.pdf", "files/a.pdf", 0, false⟩]).2 =
      .file "media/files/a.pdf" true "a.pdf" := by
  have h := no_direct_download_hides_from_view
    ⟨true, "POST", some [("id", "5"), ("no_direct_download", "true")], []⟩
    ⟨false, "GET", none, [("attachment_id", "5")]⟩
    ⟨fun _ => true, fun _ => true⟩ [⟨5, 1, "a.pdf", "files/a.pdf", 0, false⟩]
    "5" "5" 5 ⟨5, 1, "a.pdf", "files/a.pdf", 0, false⟩ "media"
    rfl rfl rfl rfl rfl rfl rfl rfl rfl rfl rfl
  exact ⟨h.1, by decide, h.2.2.2.2⟩

end Spec2Proof
